import Mathlib

/-!
Verification of the unprojection kernel `UnprojectCPU` from
`cpp/open3d/t/geometry/kernel/PointCloudImpl.h`.

The kernel converts a strided sampling of a depth image (with an optional
aligned color image) into a compacted point cloud.  We embed the kernel as a
state machine: the environment `Env` holds the read-only inputs together with
the shared counter and the two output buffers, and `stepUnit` is the body of
the per-pixel unit of work.  A run of the kernel processes a list of workload
indices; parallel interleavings are modelled by letting that list be an
arbitrary permutation of `[0, n)`, which is faithful because the atomic
fetch-and-add on the counter is the only shared mutable state and each unit's
remaining actions touch only its own exclusive slot.

Machine floats are embedded as exact rationals.
-/

namespace Unproject

/-- A 3-component row (a 3D point or an RGB color), embedding the
`float x, y, z` triples of the kernel. -/
abbrev Triple : Type := ℚ × ℚ × ℚ

/-- Pinhole intrinsics: the entries of the 3×3 intrinsic matrix that the
camera transform uses (focal lengths and principal point). -/
structure Intrinsics where
  fx : ℚ
  fy : ℚ
  cx : ℚ
  cy : ℚ

/-- A 4×4 rigid transform (the extrinsic matrix): rotation `r` and
translation `t`. -/
structure Extrinsics where
  r : Fin 3 → Fin 3 → ℚ
  t : Fin 3 → ℚ

/-- Modelled from the spec: `core::Tensor::Inverse` applied to the 4×4 rigid
extrinsic matrix (`extrinsics.Inverse()` in the kernel; the inversion routine
is not part of this file's source).  For a rigid transform `(R, t)` the
inverse is `(Rᵀ, -Rᵀ t)`. -/
def invExtr (E : Extrinsics) : Extrinsics where
  r := fun i j => E.r j i
  t := fun i => -(E.r 0 i * E.t 0 + E.r 1 i * E.t 1 + E.r 2 i * E.t 2)

/-- Modelled from the spec: `TransformIndexer::Unproject` (declared in
`GeometryIndexer.h`, not part of this file's source) — the standard pinhole
inverse `x_c = (x - cx) * d / fx`, `y_c = (y - cy) * d / fy`, `z_c = d`. -/
def unprojectCam (K : Intrinsics) (x y d : ℚ) : Triple :=
  ((x - K.cx) * d / K.fx, (y - K.cy) * d / K.fy, d)

/-- Modelled from the spec: `TransformIndexer::RigidTransform` (declared in
`GeometryIndexer.h`, not part of this file's source) — apply the 3×3 rotation
and 3×1 translation of the stored transform. -/
def rigidTransform (E : Extrinsics) (p : Triple) : Triple :=
  (E.r 0 0 * p.1 + E.r 0 1 * p.2.1 + E.r 0 2 * p.2.2 + E.t 0,
   E.r 1 0 * p.1 + E.r 1 1 * p.2.1 + E.r 1 2 * p.2.2 + E.t 1,
   E.r 2 0 * p.1 + E.r 2 1 * p.2.1 + E.r 2 2 * p.2.2 + E.t 2)

/-- The read-only inputs of `UnprojectCPU`: the H×W `uint16_t` depth image,
the optional color image, the camera matrices, `depth_scale`, `depth_max`
and `stride`. -/
structure UnprojectInput where
  H : Nat
  W : Nat
  depth : Nat → Nat → Nat
  colorImage : Option (Nat → Nat → Triple)
  intrinsics : Intrinsics
  extrinsics : Extrinsics
  depth_scale : ℚ
  depth_max : ℚ
  stride : Nat

/-- `have_colors = (image_colors.NumElements() != 0)`. -/
def haveColors (inp : UnprojectInput) : Bool :=
  inp.colorImage.isSome

/-- Reading the color image at pixel `(x, y)` (the three channel reads
through `image_colors_indexer`). -/
def colorImageAt (inp : UnprojectInput) (x y : Nat) : Triple :=
  (inp.colorImage.getD (fun _ _ => (0, 0, 0))) x y

/-- `rows_strided = depth_indexer.GetShape(0) / stride`. -/
def rows_strided (inp : UnprojectInput) : Nat :=
  inp.H / inp.stride

/-- `cols_strided = depth_indexer.GetShape(1) / stride`. -/
def cols_strided (inp : UnprojectInput) : Nat :=
  inp.W / inp.stride

/-- Total workload `n = rows_strided * cols_strided`. -/
def numSampled (inp : UnprojectInput) : Nat :=
  rows_strided inp * cols_strided inp

/-- `x = (workload_idx % cols_strided) * stride`. -/
def pixelX (inp : UnprojectInput) (i : Nat) : Nat :=
  (i % cols_strided inp) * inp.stride

/-- `y = (workload_idx / cols_strided) * stride`. -/
def pixelY (inp : UnprojectInput) (i : Nat) : Nat :=
  (i / cols_strided inp) * inp.stride

/-- The pixel coordinates `(x, y)` sampled by workload index `i`. -/
def pixelCoords (inp : UnprojectInput) (i : Nat) : Nat × Nat :=
  (pixelX inp i, pixelY inp i)

/-- `d = *depth_indexer.GetDataPtrFromCoord<uint16_t>(x, y) / depth_scale`. -/
def depthScaledAt (inp : UnprojectInput) (i : Nat) : ℚ :=
  (inp.depth (pixelX inp i) (pixelY inp i) : ℚ) / inp.depth_scale

/-- The validity filter `d > 0 && d < depth_max`. -/
def valid (inp : UnprojectInput) (i : Nat) : Prop :=
  0 < depthScaledAt inp i ∧ depthScaledAt inp i < inp.depth_max

instance (inp : UnprojectInput) (i : Nat) : Decidable (valid inp i) :=
  inferInstanceAs (Decidable (0 < depthScaledAt inp i ∧ depthScaledAt inp i < inp.depth_max))

/-- The point written by an accepted workload index:
`ti.Unproject(x, y, d, ...)` followed by `ti.RigidTransform(x_c, y_c, z_c, vertex...)`,
where `ti` holds the intrinsics and the inverted extrinsics. -/
def pointAt (inp : UnprojectInput) (i : Nat) : Triple :=
  rigidTransform (invExtr inp.extrinsics)
    (unprojectCam inp.intrinsics (pixelX inp i : ℚ) (pixelY inp i : ℚ) (depthScaledAt inp i))

/-- The color copied for an accepted workload index: the three channels of
`image_colors_indexer.GetDataPtrFromCoord<float>(x, y)`. -/
def colorAt (inp : UnprojectInput) (i : Nat) : Triple :=
  colorImageAt inp (pixelX inp i) (pixelY inp i)

/-- The mutable state of a run: the (read-only) inputs, the shared atomic
counter `count`, and the `points` / `colors` output buffers. -/
structure Env where
  inp : UnprojectInput
  count : Nat
  points : Nat → Triple
  colors : Nat → Triple

/-- The state before the parallel launch: counter at 0, freshly allocated
(uninitialized, here zero-filled) output buffers. -/
def initEnv (inp : UnprojectInput) : Env where
  inp := inp
  count := 0
  points := fun _ => (0, 0, 0)
  colors := fun _ => (0, 0, 0)

/-- The per-pixel unit of work (the lambda passed to
`CPULauncher::LaunchGeneralKernel`): read the depth, filter it, and if valid
claim slot `idx = OPEN3D_ATOMIC_ADD(count_ptr, 1)` (the pre-increment count)
and write the transformed point there, plus the color when `have_colors`. -/
def stepUnit (e : Env) (i : Nat) : Env :=
  if valid e.inp i then
    { e with
      count := e.count + 1,
      points := Function.update e.points e.count (pointAt e.inp i),
      colors :=
        if haveColors e.inp then
          Function.update e.colors e.count (colorAt e.inp i)
        else
          e.colors }
  else
    e

/-- A full run of the kernel: execute every workload index in `order`
(an interleaving of the parallel units) starting from the fresh state. -/
def UnprojectCPU (inp : UnprojectInput) (order : List Nat) : Env :=
  order.foldl stepUnit (initEnv inp)

/-- The sequential in-order schedule over all `n` workload indices. -/
def canonOrder (inp : UnprojectInput) : List Nat :=
  List.range (numSampled inp)

/-- `total_pts_count = (*count_ptr).load()` after the launch returns. -/
def finalCount (inp : UnprojectInput) (order : List Nat) : Nat :=
  (UnprojectCPU inp order).count

/-- `points = points.Slice(0, 0, total_pts_count)`: the output rows, in slot
order. -/
def outputPoints (inp : UnprojectInput) (order : List Nat) : List Triple :=
  (List.range (finalCount inp order)).map (UnprojectCPU inp order).points

/-- The rows of the color buffer up to `total_pts_count` (meaningful when
`have_colors`). -/
def outputColorsList (inp : UnprojectInput) (order : List Nat) : List Triple :=
  (List.range (finalCount inp order)).map (UnprojectCPU inp order).colors

/-- `colors = colors.Slice(0, 0, total_pts_count)` when `have_colors`;
absent otherwise. -/
def outputColorsOpt (inp : UnprojectInput) (order : List Nat) : Option (List Triple) :=
  if haveColors inp then some (outputColorsList inp order) else none

/-- The workload indices of `order` accepted by the validity filter. -/
def srcIndices (inp : UnprojectInput) (order : List Nat) : List Nat :=
  order.filter fun i => decide (valid inp i)

/-! ### Structural lemmas about a run -/

lemma stepUnit_inp (e : Env) (i : Nat) : (stepUnit e i).inp = e.inp := by
  unfold stepUnit
  split <;> rfl

lemma stepUnit_count_pos (e : Env) (i : Nat) (hv : valid e.inp i) :
    (stepUnit e i).count = e.count + 1 := by
  unfold stepUnit
  rw [if_pos hv]

lemma stepUnit_points_pos (e : Env) (i : Nat) (hv : valid e.inp i) :
    (stepUnit e i).points = Function.update e.points e.count (pointAt e.inp i) := by
  unfold stepUnit
  rw [if_pos hv]

lemma stepUnit_colors_pos (e : Env) (i : Nat) (hv : valid e.inp i)
    (hc : haveColors e.inp = true) :
    (stepUnit e i).colors = Function.update e.colors e.count (colorAt e.inp i) := by
  unfold stepUnit
  rw [if_pos hv]
  simp [hc]

lemma stepUnit_neg (e : Env) (i : Nat) (hv : ¬ valid e.inp i) :
    stepUnit e i = e := by
  unfold stepUnit
  rw [if_neg hv]

lemma foldl_inp (order : List Nat) : ∀ e : Env,
    (order.foldl stepUnit e).inp = e.inp := by
  induction order with
  | nil => intro e; rfl
  | cons i rest ih =>
    intro e
    rw [List.foldl_cons, ih (stepUnit e i), stepUnit_inp]

lemma foldl_count (order : List Nat) : ∀ e : Env,
    (order.foldl stepUnit e).count
      = e.count + (order.filter fun i => decide (valid e.inp i)).length := by
  induction order with
  | nil => intro e; simp
  | cons i rest ih =>
    intro e
    rw [List.foldl_cons, ih (stepUnit e i), stepUnit_inp, List.filter_cons]
    by_cases hv : valid e.inp i
    · rw [stepUnit_count_pos e i hv]
      simp [hv]
      omega
    · rw [stepUnit_neg e i hv]
      simp [hv]

lemma range_map_update {α : Type} (f : Nat → α) (c : Nat) (p : α) :
    (List.range (c + 1)).map (Function.update f c p) = (List.range c).map f ++ [p] := by
  rw [List.range_succ, List.map_append]
  congr 1
  · exact List.map_congr_left fun j hj =>
      Function.update_noteq (Nat.ne_of_lt (List.mem_range.mp hj)) p f
  · simp

lemma foldl_points (order : List Nat) : ∀ e : Env,
    (List.range (order.foldl stepUnit e).count).map (order.foldl stepUnit e).points
      = (List.range e.count).map e.points
        ++ ((order.filter fun i => decide (valid e.inp i)).map (pointAt e.inp)) := by
  induction order with
  | nil => intro e; simp
  | cons i rest ih =>
    intro e
    rw [List.foldl_cons, ih (stepUnit e i), stepUnit_inp, List.filter_cons]
    by_cases hv : valid e.inp i
    · rw [stepUnit_count_pos e i hv, stepUnit_points_pos e i hv, range_map_update]
      simp [hv]
    · rw [stepUnit_neg e i hv]
      simp [hv]

lemma foldl_colors (order : List Nat) : ∀ e : Env, haveColors e.inp = true →
    (List.range (order.foldl stepUnit e).count).map (order.foldl stepUnit e).colors
      = (List.range e.count).map e.colors
        ++ ((order.filter fun i => decide (valid e.inp i)).map (colorAt e.inp)) := by
  induction order with
  | nil => intro e _; simp
  | cons i rest ih =>
    intro e hc
    have hc' : haveColors (stepUnit e i).inp = true := by rw [stepUnit_inp]; exact hc
    rw [List.foldl_cons, ih (stepUnit e i) hc', stepUnit_inp, List.filter_cons]
    by_cases hv : valid e.inp i
    · rw [stepUnit_count_pos e i hv, stepUnit_colors_pos e i hv hc, range_map_update]
      simp [hv]
    · rw [stepUnit_neg e i hv]
      simp [hv]

/-! ### Characterization of the outputs -/

lemma finalCount_eq (inp : UnprojectInput) (order : List Nat) :
    finalCount inp order = (srcIndices inp order).length := by
  show (order.foldl stepUnit (initEnv inp)).count = _
  rw [foldl_count]
  simp [initEnv, srcIndices]

lemma outputPoints_eq (inp : UnprojectInput) (order : List Nat) :
    outputPoints inp order = (srcIndices inp order).map (pointAt inp) := by
  show (List.range (order.foldl stepUnit (initEnv inp)).count).map
      (order.foldl stepUnit (initEnv inp)).points = _
  rw [foldl_points]
  simp [initEnv, srcIndices]

lemma outputColorsList_eq (inp : UnprojectInput) (order : List Nat)
    (hc : haveColors inp = true) :
    outputColorsList inp order = (srcIndices inp order).map (colorAt inp) := by
  show (List.range (order.foldl stepUnit (initEnv inp)).count).map
      (order.foldl stepUnit (initEnv inp)).colors = _
  rw [foldl_colors _ _ hc]
  simp [initEnv, srcIndices]

/-! ### The slot assignment performed by the atomic counter -/

/-- One unit of work, instrumented to record the slot claim: an accepted
workload index `i` records the pair `(i, idx)` where
`idx = OPEN3D_ATOMIC_ADD(count_ptr, 1)` is the pre-increment counter value. -/
def traceStep (inp : UnprojectInput) (s : Nat × List (Nat × Nat)) (i : Nat) :
    Nat × List (Nat × Nat) :=
  if valid inp i then (s.1 + 1, s.2 ++ [(i, s.1)]) else s

/-- The `(workload index, claimed slot)` pairs recorded along a run. -/
def slotTrace (inp : UnprojectInput) (order : List Nat) : List (Nat × Nat) :=
  (order.foldl (traceStep inp) (0, [])).2

lemma traceFold (inp : UnprojectInput) (order : List Nat) :
    ∀ (c : Nat) (acc : List (Nat × Nat)),
    (order.foldl (traceStep inp) (c, acc)).2
        = acc ++ (srcIndices inp order).zip
            (List.range' c (srcIndices inp order).length) := by
  induction order with
  | nil => intro c acc; simp [srcIndices]
  | cons i rest ih =>
    intro c acc
    rw [List.foldl_cons]
    unfold srcIndices
    rw [List.filter_cons]
    by_cases hv : valid inp i
    · have hstep : traceStep inp (c, acc) i = (c + 1, acc ++ [(i, c)]) := by
        unfold traceStep
        rw [if_pos hv]
      rw [hstep, ih (c + 1) (acc ++ [(i, c)])]
      simp [hv, srcIndices, List.range'_succ]
    · have hstep : traceStep inp (c, acc) i = (c, acc) := by
        unfold traceStep
        rw [if_neg hv]
      rw [hstep, ih c acc]
      simp [hv, srcIndices]

lemma slotTrace_eq (inp : UnprojectInput) (order : List Nat) :
    slotTrace inp order
      = (srcIndices inp order).zip (List.range (srcIndices inp order).length) := by
  show (order.foldl (traceStep inp) (0, [])).2 = _
  rw [traceFold inp order 0 [], List.range_eq_range']
  rfl

/-! ### Concrete inputs used in the scenario claims -/

/-- The identity extrinsic matrix. -/
def idExtr : Extrinsics where
  r := fun i j => if i = j then 1 else 0
  t := fun _ => 0

/-- A 4×4 depth image, every raw sample 1 (valid after scaling), stride 2,
no color image. -/
def inp4 : UnprojectInput where
  H := 4
  W := 4
  depth := fun _ _ => 1
  colorImage := none
  intrinsics := { fx := 1, fy := 1, cx := 0, cy := 0 }
  extrinsics := idExtr
  depth_scale := 1
  depth_max := 10
  stride := 2

/-- A 5×4 depth image whose only valid sample sits at pixel `(x=3, y=4)` with
raw depth 2, with unit intrinsics, identity extrinsics, `depth_scale = 1` and
stride 1. -/
def inp5 : UnprojectInput where
  H := 5
  W := 4
  depth := fun x y => if x = 3 ∧ y = 4 then 2 else 0
  colorImage := none
  intrinsics := { fx := 1, fy := 1, cx := 0, cy := 0 }
  extrinsics := idExtr
  depth_scale := 1
  depth_max := 100
  stride := 1

/-- The image of `inp4` together with a color image that encodes each pixel's
coordinates in its first two channels. -/
def inpC : UnprojectInput :=
  { inp4 with colorImage := some fun x y => ((x : ℚ), (y : ℚ), 0) }

/-! ### Evaluating the validity filter on concrete inputs

`Rat` division does not reduce by `decide`, so for concrete runs we rewrite
the filter into a purely natural-number condition first. -/

lemma valid_nat_iff (inp : UnprojectInput) (i : Nat) (m : Nat)
    (hs : inp.depth_scale = 1) (hm : inp.depth_max = (m : ℚ)) :
    valid inp i ↔
      0 < inp.depth (pixelX inp i) (pixelY inp i) ∧
      inp.depth (pixelX inp i) (pixelY inp i) < m := by
  unfold valid depthScaledAt
  rw [hs, hm, div_one]
  exact_mod_cast Iff.rfl

lemma srcIndices_nat (inp : UnprojectInput) (order : List Nat) (m : Nat)
    (hs : inp.depth_scale = 1) (hm : inp.depth_max = (m : ℚ)) :
    srcIndices inp order = order.filter fun i =>
      decide (0 < inp.depth (pixelX inp i) (pixelY inp i) ∧
              inp.depth (pixelX inp i) (pixelY inp i) < m) := by
  unfold srcIndices
  refine List.filter_congr fun i _ => ?_
  rw [decide_eq_decide]
  exact valid_nat_iff inp i m hs hm

lemma srcIndices_inp4 : srcIndices inp4 (canonOrder inp4) = [0, 1, 2, 3] := by
  rw [srcIndices_nat inp4 (canonOrder inp4) 10 rfl (by norm_num [inp4])]
  decide

lemma srcIndices_inp5 : srcIndices inp5 (canonOrder inp5) = [19] := by
  rw [srcIndices_nat inp5 (canonOrder inp5) 100 rfl (by norm_num [inp5])]
  decide

/-! ### The claims -/

/-- C1: a sampled pixel is accepted iff its scaled depth
`d = raw_depth_value / depth_scale` satisfies `0 < d < depth_max`; every
accepted pixel emits exactly one output point, a rejected pixel emits nothing
and never increments the counter, so the output rows are exactly the
unprojections of the accepted sampled pixels and the final counter equals
their number. -/
theorem validity_filter_exact (inp : UnprojectInput) :
    (∀ i : Nat, valid inp i ↔
        0 < depthScaledAt inp i ∧ depthScaledAt inp i < inp.depth_max) ∧
    outputPoints inp (canonOrder inp)
      = (srcIndices inp (canonOrder inp)).map (pointAt inp) ∧
    finalCount inp (canonOrder inp) = (srcIndices inp (canonOrder inp)).length :=
  ⟨fun _ => Iff.rfl, outputPoints_eq inp (canonOrder inp),
    finalCount_eq inp (canonOrder inp)⟩

/-- C2: when a color image is provided, the point and color outputs are
index-aligned — both are the image of one and the same list of accepted
source pixels, the points under the camera transform and the colors under
the color-image lookup at those very pixels. -/
theorem color_alignment (inp : UnprojectInput) (order : List Nat)
    (h : haveColors inp = true) :
    outputPoints inp order = (srcIndices inp order).map (pointAt inp) ∧
    outputColorsOpt inp order = some ((srcIndices inp order).map (colorAt inp)) := by
  refine ⟨outputPoints_eq inp order, ?_⟩
  unfold outputColorsOpt
  rw [if_pos h, outputColorsList_eq inp order h]

/-- Witness for C2 at a concrete colored input and the sequential schedule. -/
theorem color_alignment_witness :
    outputPoints inpC (canonOrder inpC)
      = (srcIndices inpC (canonOrder inpC)).map (pointAt inpC) ∧
    outputColorsOpt inpC (canonOrder inpC)
      = some ((srcIndices inpC (canonOrder inpC)).map (colorAt inpC)) :=
  color_alignment inpC (canonOrder inpC) rfl

/-- C3: under any interleaving of the workload, the sliced output length
equals the final counter value and never exceeds the worst-case capacity
`floor(H/stride) * floor(W/stride)`. -/
theorem count_bound (inp : UnprojectInput) (order : List Nat)
    (h : order.Perm (canonOrder inp)) :
    (outputPoints inp order).length = finalCount inp order ∧
    finalCount inp order ≤ numSampled inp := by
  constructor
  · show ((List.range (finalCount inp order)).map (UnprojectCPU inp order).points).length = _
    rw [List.length_map, List.length_range]
  · rw [finalCount_eq]
    calc (srcIndices inp order).length
        ≤ order.length := List.length_filter_le _ order
      _ = (canonOrder inp).length := h.length_eq
      _ = numSampled inp := List.length_range _

/-- Witness for C3 at a concrete input and the sequential schedule. -/
theorem count_bound_witness :
    (outputPoints inp4 (canonOrder inp4)).length = finalCount inp4 (canonOrder inp4) ∧
    finalCount inp4 (canonOrder inp4) ≤ numSampled inp4 :=
  count_bound inp4 (canonOrder inp4) (List.Perm.refl _)

/-- C4: the sampling grid is `rows = floor(H/stride)`, `cols = floor(W/stride)`,
`n = rows * cols`, workload index `i` samples pixel
`x = (i mod cols) * stride`, `y = (i div cols) * stride` (so a partial
trailing row or column is dropped by the floor); and stride 2 on a 4×4
all-valid depth image yields exactly 4 points, sampled at pixels
(0,0), (2,0), (0,2), (2,2). -/
theorem stride_grid :
    (∀ (inp : UnprojectInput) (i : Nat),
        numSampled inp = inp.H / inp.stride * (inp.W / inp.stride) ∧
        pixelCoords inp i
          = ((i % (inp.W / inp.stride)) * inp.stride,
             (i / (inp.W / inp.stride)) * inp.stride)) ∧
    finalCount inp4 (canonOrder inp4) = 4 ∧
    (canonOrder inp4).map (pixelCoords inp4) = [(0, 0), (2, 0), (0, 2), (2, 2)] := by
  refine ⟨fun inp i => ⟨rfl, rfl⟩, ?_, ?_⟩
  · rw [finalCount_eq, srcIndices_inp4]
    rfl
  · decide

/-- C5: each accepted pixel is unprojected by the pinhole inverse
`x_c = (x - cx) * d / fx`, `y_c = (y - cy) * d / fy`, `z_c = d` followed by
the rigid transform of the inverted extrinsic; with unit intrinsics, identity
extrinsics, `depth_scale = 1` and a single valid pixel at `(3, 4)` with depth
2, the kernel outputs exactly the point `(6, 8, 2)`. -/
theorem pinhole_identity_scenario :
    (∀ (K : Intrinsics) (x y d : ℚ),
        unprojectCam K x y d = ((x - K.cx) * d / K.fx, (y - K.cy) * d / K.fy, d)) ∧
    (∀ (inp : UnprojectInput) (i : Nat),
        pointAt inp i = rigidTransform (invExtr inp.extrinsics)
          (unprojectCam inp.intrinsics (pixelX inp i : ℚ) (pixelY inp i : ℚ)
            (depthScaledAt inp i))) ∧
    outputPoints inp5 (canonOrder inp5) = [(6, 8, 2)] := by
  refine ⟨fun K x y d => rfl, fun inp i => rfl, ?_⟩
  rw [outputPoints_eq, srcIndices_inp5]
  simp [pointAt, rigidTransform, invExtr, unprojectCam, idExtr, inp5,
    pixelX, pixelY, cols_strided, depthScaledAt]
  norm_num

/-- C6: OutputColors is present iff a color image was provided; with no
color image the color output is absent while the points and the counter are
computed exactly as with any other color data, so no color read influences
them. -/
theorem no_color_path (inp : UnprojectInput) (order : List Nat) :
    ((outputColorsOpt inp order).isSome = haveColors inp) ∧
    (haveColors inp = false → outputColorsOpt inp order = none) ∧
    (∀ c, outputPoints { inp with colorImage := c } order = outputPoints inp order) ∧
    (∀ c, finalCount { inp with colorImage := c } order = finalCount inp order) := by
  refine ⟨?_, ?_, fun c => ?_, fun c => ?_⟩
  · cases h : haveColors inp <;> simp [outputColorsOpt, h]
  · intro h
    simp [outputColorsOpt, h]
  · rw [outputPoints_eq, outputPoints_eq]
    rfl
  · rw [finalCount_eq, finalCount_eq]
    rfl

/-- C7: two runs on identical inputs under any two interleavings produce the
same multiset of points and, when colors are present, the same multiset of
point/color row pairs: the outputs are permutations of each other. -/
theorem order_permutation (inp : UnprojectInput) (o1 o2 : List Nat)
    (h1 : o1.Perm (canonOrder inp)) (h2 : o2.Perm (canonOrder inp)) :
    (outputPoints inp o1).Perm (outputPoints inp o2) ∧
    (haveColors inp = true →
      ((outputPoints inp o1).zip (outputColorsList inp o1)).Perm
        ((outputPoints inp o2).zip (outputColorsList inp o2))) := by
  have h12 : o1.Perm o2 := h1.trans h2.symm
  constructor
  · rw [outputPoints_eq, outputPoints_eq]
    exact (h12.filter _).map _
  · intro hc
    rw [outputPoints_eq, outputPoints_eq, outputColorsList_eq inp o1 hc,
      outputColorsList_eq inp o2 hc, List.zip_map', List.zip_map']
    exact (h12.filter _).map _

/-- Witness for C7: the sequential schedule against its reversal, on a
colored input. -/
theorem order_permutation_witness :
    (outputPoints inpC (canonOrder inpC)).Perm
      (outputPoints inpC (canonOrder inpC).reverse) ∧
    (haveColors inpC = true →
      ((outputPoints inpC (canonOrder inpC)).zip
          (outputColorsList inpC (canonOrder inpC))).Perm
        ((outputPoints inpC (canonOrder inpC).reverse).zip
          (outputColorsList inpC (canonOrder inpC).reverse))) :=
  order_permutation inpC (canonOrder inpC) (canonOrder inpC).reverse
    (List.Perm.refl _) (List.reverse_perm _)

/-- C8: under an arbitrary interleaving the fetch-and-add hands every
accepted pixel the pre-increment counter value, so the claimed slots are
exactly `0, 1, ..., total - 1`: pairwise distinct (no two units write the
same slot) and densely packed; each accepted pixel claims exactly one slot;
and the resulting point multiset equals that of the sequential run — no
point is lost or duplicated. -/
theorem slot_uniqueness (inp : UnprojectInput) (order : List Nat)
    (h : order.Perm (canonOrder inp)) :
    slotTrace inp order
      = (srcIndices inp order).zip (List.range (finalCount inp order)) ∧
    (slotTrace inp order).map Prod.snd = List.range (finalCount inp order) ∧
    ((slotTrace inp order).map Prod.snd).Nodup ∧
    (slotTrace inp order).map Prod.fst = srcIndices inp order ∧
    ((slotTrace inp order).map Prod.fst).Nodup ∧
    (outputPoints inp order).Perm (outputPoints inp (canonOrder inp)) := by
  have hzip : slotTrace inp order
      = (srcIndices inp order).zip (List.range (finalCount inp order)) := by
    rw [slotTrace_eq, finalCount_eq]
  have hsnd : (slotTrace inp order).map Prod.snd
      = List.range (finalCount inp order) := by
    rw [hzip]
    exact List.map_snd_zip _ _ (by rw [List.length_range, finalCount_eq])
  have hfst : (slotTrace inp order).map Prod.fst = srcIndices inp order := by
    rw [hzip]
    exact List.map_fst_zip _ _ (by rw [List.length_range, finalCount_eq])
  refine ⟨hzip, hsnd, ?_, hfst, ?_, ?_⟩
  · rw [hsnd]
    exact List.nodup_range _
  · rw [hfst]
    exact (h.nodup_iff.mpr (List.nodup_range _)).filter _
  · rw [outputPoints_eq, outputPoints_eq]
    exact (h.filter _).map _

/-- Witness for C8: a reversed schedule on a concrete input. -/
theorem slot_uniqueness_witness :
    slotTrace inp5 (canonOrder inp5).reverse
      = (srcIndices inp5 (canonOrder inp5).reverse).zip
          (List.range (finalCount inp5 (canonOrder inp5).reverse)) ∧
    (slotTrace inp5 (canonOrder inp5).reverse).map Prod.snd
      = List.range (finalCount inp5 (canonOrder inp5).reverse) ∧
    ((slotTrace inp5 (canonOrder inp5).reverse).map Prod.snd).Nodup ∧
    (slotTrace inp5 (canonOrder inp5).reverse).map Prod.fst
      = srcIndices inp5 (canonOrder inp5).reverse ∧
    ((slotTrace inp5 (canonOrder inp5).reverse).map Prod.fst).Nodup ∧
    (outputPoints inp5 (canonOrder inp5).reverse).Perm
      (outputPoints inp5 (canonOrder inp5)) :=
  slot_uniqueness inp5 (canonOrder inp5).reverse (List.reverse_perm _)

/-- C9: the run never modifies its inputs: from any starting environment the
input component is untouched by every unit of work, so the depth image, the
color image, the intrinsics and the extrinsics are unchanged when the kernel
returns. -/
theorem inputs_unchanged (inp : UnprojectInput) (order : List Nat) (e : Env) :
    (UnprojectCPU inp order).inp = inp ∧
    (order.foldl stepUnit e).inp = e.inp ∧
    (UnprojectCPU inp order).inp.depth = inp.depth ∧
    (UnprojectCPU inp order).inp.colorImage = inp.colorImage ∧
    (UnprojectCPU inp order).inp.intrinsics = inp.intrinsics ∧
    (UnprojectCPU inp order).inp.extrinsics = inp.extrinsics := by
  have h : (UnprojectCPU inp order).inp = inp := foldl_inp order (initEnv inp)
  exact ⟨h, foldl_inp order e, by rw [h], by rw [h], by rw [h], by rw [h]⟩

/-- C10: when the stride exceeds the image height or width the strided grid
is empty, so the workload is 0, no per-pixel unit runs, and the kernel
returns an empty point list — and an empty color list when colors were
provided. -/
theorem oversized_stride (inp : UnprojectInput)
    (h : inp.H < inp.stride ∨ inp.W < inp.stride) :
    numSampled inp = 0 ∧
    canonOrder inp = [] ∧
    outputPoints inp (canonOrder inp) = [] ∧
    (haveColors inp = true → outputColorsOpt inp (canonOrder inp) = some []) := by
  have h0 : numSampled inp = 0 := by
    unfold numSampled rows_strided cols_strided
    rcases h with h | h
    · rw [Nat.div_eq_of_lt h, Nat.zero_mul]
    · rw [Nat.div_eq_of_lt h, Nat.mul_zero]
  have hord : canonOrder inp = [] := by
    unfold canonOrder
    rw [h0]
    rfl
  refine ⟨h0, hord, ?_, ?_⟩
  · rw [hord]
    rfl
  · intro hcol
    rw [hord]
    unfold outputColorsOpt
    rw [if_pos hcol]
    rfl

/-- A colored input whose stride exceeds both image dimensions. -/
def inpS : UnprojectInput := { inpC with stride := 9 }

/-- Witness for C10 at a concrete colored input with oversized stride. -/
theorem oversized_stride_witness :
    numSampled inpS = 0 ∧
    canonOrder inpS = [] ∧
    outputPoints inpS (canonOrder inpS) = [] ∧
    (haveColors inpS = true → outputColorsOpt inpS (canonOrder inpS) = some []) :=
  oversized_stride inpS (Or.inl (by decide))

end Unproject
